import Mathlib

/-!
Verification of the `pfzf` core against its specification.

This file embeds, as executable Lean definitions, the parts of the Go
program that the spec's claims are about:

* the content chunker `Chunker.Chunk` (internal/processor, chunker file);
* the binary/text classifier `Scanner.isBinaryFile` (internal/scanner/scanner.go);
* the walker skip decision `Scanner.shouldSkip` (internal/scanner/scanner.go),
  together with an embedding of Go's `path/filepath.Match`;
* scanner construction `New` with the validating options
  `WithMaxFileSize` / `WithMaxFiles` (internal/scanner/options.go).

Go byte slices are modelled as `List Nat` (one entry per byte), Go strings
that are only pattern-matched rune-by-rune as `List Char`, and Go's `int` /
`int64` as `Int` (no arithmetic here ever approaches 2^63, so wrap-around
is unreachable and not modelled).  A Go function that can panic is modelled
with an explicit `panicked` result.
-/

namespace Pfzf

/-! ## Bytes: whitespace, trimming, token counting

`bytes.TrimSpace` trims leading and trailing white space.  The contents the
claims quantify over are byte strings; for bytes below 0x80 Go's
`unicode.IsSpace` on the decoded rune holds exactly for the six ASCII
white-space characters.  (Multi-byte UTF-8 white space such as U+00A0 is
outside this byte-level model.) -/

/-- ASCII white-space bytes, as trimmed by `bytes.TrimSpace`. -/
def isSpaceByte (b : Nat) : Bool :=
  b == 9 || b == 10 || b == 11 || b == 12 || b == 13 || b == 32

/-- Drop leading white-space bytes. -/
def trimLeftBytes : List Nat → List Nat
  | [] => []
  | b :: bs => if isSpaceByte b then trimLeftBytes bs else b :: bs

/-- Go: `bytes.TrimSpace`: drop leading and trailing white-space bytes. -/
def trimSpaceBytes (l : List Nat) : List Nat :=
  (trimLeftBytes (trimLeftBytes l).reverse).reverse

/-- Go: `Chunker.countTokens`: number of maximal runs of non-white-space
characters, computed with the `inWord` flag exactly as the Go loop does. -/
def countTokensAux : List Nat → Bool → Nat
  | [], _ => 0
  | b :: bs, inWord =>
    if isSpaceByte b then countTokensAux bs false
    else if inWord then countTokensAux bs true
    else countTokensAux bs true + 1

/-- Go: `Chunker.countTokens` entry point (`inWord` starts out false). -/
def countTokens (l : List Nat) : Nat := countTokensAux l false

/-! ## The chunk data type (pkg/types.Chunk) -/

/-- Go: `types.Chunk`.  `content` is the `Content` byte slice. -/
structure Chunk where
  content : List Nat
  startLine : Int
  endLine : Int
  tokenCount : Nat
deriving DecidableEq

/-- Build the `types.Chunk` the Go code builds from a body slice `body`:
`Content: append(bytes.TrimSpace(body), '\n'), StartLine: 1, EndLine: 1,
TokenCount: countTokens(string(body))`. -/
def mkChunk (body : List Nat) : Chunk :=
  { content := trimSpaceBytes body ++ [10]
    startLine := 1
    endLine := 1
    tokenCount := countTokens body }

/-! ## Go slicing

`content[lo:hi]` on a byte slice panics unless `0 ≤ lo ≤ hi ≤ cap`.  The
chunker only ever forms slices with `hi ≤ len(content)` when `hi ≥ lo`, so
checking against the length is equivalent to checking against the
capacity at every reachable call site. -/

/-- Go: `l[lo:hi]`: `none` models the Go runtime panic on bad bounds. -/
def goSlice (l : List Nat) (lo hi : Int) : Option (List Nat) :=
  if 0 ≤ lo ∧ lo ≤ hi ∧ hi ≤ (l.length : Int) then
    some ((l.drop lo.toNat).take (hi - lo).toNat)
  else
    none

/-- Pure slice expression used to state what `goSlice` returns when its
bounds are good. -/
def sliceI (l : List Nat) (lo hi : Int) : List Nat :=
  (l.drop lo.toNat).take (hi - lo).toNat

/-! ## Chunker.Chunk (internal/processor chunker)

The Go loop is embedded with explicit fuel; `LoopRes.fuelOut` is not a
program behaviour but fuel exhaustion of the model, and is proved
unreachable for the fuel `Chunk` supplies.  `LoopRes.panicked` models the
Go runtime panic of a bad slice expression (which `Chunk` reaches when
`MaxSize` is negative and content is non-empty). -/

/-- Result of running the chunking loop. -/
inductive LoopRes where
  | ok (chunks : List Chunk)
  | panicked
  | fuelOut
deriving DecidableEq

/-- Go: `chunkSize := c.opts.MaxSize; if pos+chunkSize > contentLen
{ chunkSize = contentLen - pos }`. -/
def winSize (ms len pos : Int) : Int :=
  if pos + ms > len then len - pos else ms

/-- Go: `advance := chunkSize - int64(c.opts.Overlap); if advance < 1
{ advance = 1 }`. -/
def advanceOf (ov size : Int) : Int :=
  if size - ov < 1 then 1 else size - ov

/-- The sliding-window loop of `Chunker.Chunk` (the `for pos < contentLen`
loop), with `ms = c.opts.MaxSize`, `ov = int64(c.opts.Overlap)`.  Each
iteration mirrors the Go statements in order: clamp `chunkSize`, slice and
append the chunk, advance `pos` with a floor of 1, then the
remaining-content check that emits one final chunk and breaks. -/
def chunkLoop (ms ov : Int) (content : List Nat) : Nat → Int → LoopRes
  | 0, _ => .fuelOut
  | fuel + 1, pos =>
    if pos < (content.length : Int) then
      let chunkSize := winSize ms (content.length : Int) pos
      match goSlice content pos (pos + chunkSize) with
      | none => .panicked
      | some chunkContent =>
        let chunk := mkChunk chunkContent
        let pos1 := pos + advanceOf ov chunkSize
        if pos1 < (content.length : Int) ∧ (content.length : Int) - pos1 ≤ ov then
          match goSlice content pos1 (content.length : Int) with
          | none => .panicked
          | some finalContent =>
            if finalContent.length > 0 then .ok [chunk, mkChunk finalContent]
            else .ok [chunk]
        else
          match chunkLoop ms ov content fuel pos1 with
          | .ok rest => .ok (chunk :: rest)
          | r => r
    else
      .ok []

/-- Go: `Chunker.Chunk`.  Empty content returns the nil slice; content that
fits within a positive `MaxSize` returns the single trimmed chunk;
otherwise the sliding-window loop runs from position 0.  The fuel
`content.length + 1` is sufficient (proved below), so `fuelOut` never
escapes from this definition. -/
def chunkFn (ms ov : Int) (content : List Nat) : LoopRes :=
  if content.length = 0 then .ok []
  else if 0 < ms ∧ (content.length : Int) ≤ ms then
    .ok [mkChunk content]
  else
    chunkLoop ms ov content (content.length + 1) 0

/-- Number of chunks of a normal result. -/
def resLength : LoopRes → Option Nat
  | .ok chunks => some chunks.length
  | _ => none

/-! ## Ghost byte windows of the chunking loop

`loopWindows` re-runs the control flow of `chunkLoop` but records, instead
of each built chunk, the half-open byte interval `(start, stop)` of
`content` the chunk's body was sliced from.  It is a specification
artifact (not part of the program); the correspondence theorem below
proves that `chunkLoop` returns exactly the `mkChunk` image of these
windows. -/

/-- The byte windows visited by the sliding-window loop. -/
def loopWindows (ms ov : Int) (content : List Nat) : Nat → Int → List (Int × Int)
  | 0, _ => []
  | fuel + 1, pos =>
    if pos < (content.length : Int) then
      let chunkSize := winSize ms (content.length : Int) pos
      let pos1 := pos + advanceOf ov chunkSize
      if pos1 < (content.length : Int) ∧ (content.length : Int) - pos1 ≤ ov then
        [(pos, pos + chunkSize), (pos1, (content.length : Int))]
      else
        (pos, pos + chunkSize) :: loopWindows ms ov content fuel pos1
    else
      []

/-- The byte windows of a whole `Chunk` call (empty content and the
single-chunk fast path included). -/
def chunkWindows (ms ov : Int) (content : List Nat) : List (Int × Int) :=
  if content.length = 0 then []
  else if 0 < ms ∧ (content.length : Int) ≤ ms then [(0, (content.length : Int))]
  else loopWindows ms ov content (content.length + 1) 0

/-- Concatenate window slices of `content`, dropping from each window the
part that lies before `prevEnd`, the end of the previous window (the
deliberate overlap). -/
def stitchFrom (content : List Nat) : Int → List (Int × Int) → List Nat
  | _, [] => []
  | prevEnd, w :: ws =>
    (sliceI content w.1 w.2).drop (prevEnd - w.1).toNat ++ stitchFrom content w.2 ws

/-- Concatenation of all window slices with overlaps removed. -/
def stitched (content : List Nat) (ws : List (Int × Int)) : List Nat :=
  stitchFrom content 0 ws

/-- Windows chained from `prevEnd`: each window starts at or before the
previous end, ends at or after it, stays inside `content`, and the last
window ends exactly at `len`. -/
def covering (len : Int) : Int → List (Int × Int) → Prop
  | prevEnd, [] => prevEnd = len
  | prevEnd, w :: ws =>
    0 ≤ w.1 ∧ w.1 ≤ prevEnd ∧ prevEnd ≤ w.2 ∧ w.2 ≤ len ∧ covering len w.2 ws

/-! ## Binary classification (`Scanner.isBinaryFile`, scanner.go) -/

/-- Go: `binaryCheckSize = 512`. -/
def binaryCheckSize : Nat := 512

/-- Go: `unicode.IsSpace(rune(b))` for a byte `b`: the six ASCII white-space
characters plus next line (U+0085) and no-break space (U+00A0), the
white-space code points of Latin-1. -/
def isSpaceRune (b : Nat) : Bool :=
  b == 9 || b == 10 || b == 11 || b == 12 || b == 13 || b == 32 || b == 133 || b == 160

/-- Go: `unicode.IsGraphic(rune(b))` for a byte `b`: letters, marks, numbers,
punctuation, symbols and spaces.  Within Latin-1 these are 0x20..0x7E and
0xA0..0xFF except the soft hyphen 0xAD (category Cf). -/
def isGraphicRune (b : Nat) : Bool :=
  (32 ≤ b && b ≤ 126) || (160 ≤ b && b ≤ 255 && b != 173)

/-- The condition counted by the `isBinaryFile` loop:
`b == 0 || (!unicode.IsGraphic(rune(b)) && !unicode.IsSpace(rune(b)))`. -/
def isNonPrintable (b : Nat) : Bool :=
  b == 0 || (!isGraphicRune b && !isSpaceRune b)

/-- The `nonPrintable` counting loop of `isBinaryFile`, as the fold it
is. -/
def countNonPrintable (buf : List Nat) : Nat :=
  buf.foldl (fun acc b => if isNonPrintable b then acc + 1 else acc) 0

/-- Go: `Scanner.isBinaryFile`, as a function of the file's bytes.  The single
`f.Read` into a 512-byte buffer is modelled as taking the first
`min(512, len)` bytes, its behaviour on a regular file.  The float
comparison `float64(nonPrintable)/float64(len(buf)) > 0.3` is modelled by
the exact integer comparison `10*nonPrintable > 3*len`: numerator and
denominator are at most 512, hence exact in float64; a rational `np/len`
different from `3/10` differs from it by at least `1/5120`, far above any
rounding of the division or of the literal `0.3`, and `np/len = 3/10`
exactly makes both comparisons false (the nearest double to `0.3` is the
common value of both sides). -/
def isBinaryFile (file : List Nat) : Bool :=
  let buf := file.take binaryCheckSize
  if buf.length = 0 then false
  else 10 * countNonPrintable buf > 3 * buf.length

/-! ## Go `path/filepath.Match` (called by `Scanner.shouldSkip`)

`filepath.Match` is Go standard library, not repository code; it is
embedded because `shouldSkip` applies it to every ignore pattern.
Strings are modelled as rune lists (`List Char`), which coincides with
Go's byte-level processing on ASCII input (all patterns and paths in this
repository are ASCII).  Loops that are not structurally recursive carry
explicit fuel; the fuel supplied at each call site (one unit per
character plus one) covers every possible iteration count, since each
iteration consumes at least one character.  A `none` result models
`ErrBadPattern`. -/

/-- The leading-star loop of `scanChunk`. -/
def stripStars : List Char → Bool × List Char
  | '*' :: rest => (true, (stripStars rest).2)
  | l => (false, l)

/-- The `Scan` loop of `scanChunk`: split off the literal chunk up to the
next star that is outside a bracket range (a backslash escapes the next
character). -/
def scanBody : Bool → List Char → List Char × List Char
  | _, [] => ([], [])
  | inrange, c :: rest =>
    if c = '\\' then
      match rest with
      | d :: rest2 =>
        let p := scanBody inrange rest2
        (c :: d :: p.1, p.2)
      | [] => ([c], [])
    else if c = '[' then
      let p := scanBody true rest
      (c :: p.1, p.2)
    else if c = ']' then
      let p := scanBody false rest
      (c :: p.1, p.2)
    else if c = '*' then
      if inrange then
        let p := scanBody inrange rest
        (c :: p.1, p.2)
      else ([], c :: rest)
    else
      let p := scanBody inrange rest
      (c :: p.1, p.2)

/-- Go: `scanChunk pattern = (star, chunk, rest)`. -/
def scanChunk (pattern : List Char) : Bool × List Char × List Char :=
  let s := stripStars pattern
  let p := scanBody false s.2
  (s.1, p.1, p.2)

/-- Go: `getEsc`: read one possibly-escaped character of a bracket range. -/
def getEsc : List Char → Option (Char × List Char)
  | [] => none
  | c :: rest =>
    if c = '-' ∨ c = ']' then none
    else if c = '\\' then
      match rest with
      | [] => none
      | d :: rest2 => if rest2 = [] then none else some (d, rest2)
    else if rest = [] then none
    else some (c, rest)

/-- The range-parsing loop of `matchChunk`'s character-class case.  `r`
is the rune read from the name (`U+0000` when the match has already
failed, as in Go, where `var r rune` keeps its zero value); returns the
accumulated `match` flag and the rest of the chunk. -/
def classRanges (r : Char) : Nat → Nat → Bool → List Char → Option (Bool × List Char)
  | 0, _, _, _ => none
  | fuel + 1, nrange, m, chunk =>
    match chunk with
    | ']' :: rest =>
      if nrange > 0 then some (m, rest)
      else none
    | _ =>
      match getEsc chunk with
      | none => none
      | some (lo, chunk1) =>
        match chunk1 with
        | '-' :: chunk2 =>
          match getEsc chunk2 with
          | none => none
          | some (hi, chunk3) =>
            classRanges r fuel (nrange + 1) (m || (decide (lo ≤ r) && decide (r ≤ hi))) chunk3
        | _ => classRanges r fuel (nrange + 1) (m || (decide (lo ≤ r) && decide (r ≤ lo))) chunk1

/-- Go: `matchChunk`: match the leading literal chunk against `s`.  `none`
models `ErrBadPattern`; `some none` a failed match; `some (some rest)` a
successful match with remaining name `rest`.  After a failure the loop
keeps validating the chunk without reading the name, tracked by `failed`
exactly as in Go.  (The inner `none`s on an empty `s` with `failed`
still false are unreachable: the top-of-iteration check would have set
`failed`.) -/
def matchChunk : Nat → Bool → List Char → List Char → Option (Option (List Char))
  | 0, _, _, _ => none
  | fuel + 1, failed0, chunk, s =>
    match chunk with
    | [] => some (if failed0 then none else some s)
    | c :: rest =>
      let failed := if !failed0 && s.isEmpty then true else failed0
      if c = '[' then
        let rs : Char × List Char :=
          if failed then (Char.ofNat 0, s)
          else
            match s with
            | [] => (Char.ofNat 0, [])
            | x :: xs => (x, xs)
        let ng : Bool × List Char :=
          match rest with
          | '^' :: rest1 => (true, rest1)
          | _ => (false, rest)
        match classRanges rs.1 (ng.2.length + 1) 0 false ng.2 with
        | none => none
        | some (m, rest2) =>
          matchChunk fuel (if m = ng.1 then true else failed) rest2 rs.2
      else if c = '?' then
        if failed then matchChunk fuel failed rest s
        else
          match s with
          | [] => none
          | x :: xs => matchChunk fuel (if x = '/' then true else failed) rest xs
      else if c = '\\' then
        match rest with
        | [] => none
        | d :: rest2 =>
          if failed then matchChunk fuel failed rest2 s
          else
            match s with
            | [] => none
            | x :: xs => matchChunk fuel (if d ≠ x then true else failed) rest2 xs
      else
        if failed then matchChunk fuel failed rest s
        else
          match s with
          | [] => none
          | x :: xs => matchChunk fuel (if c ≠ x then true else failed) rest xs

/-- The star retry loop of `Match`: try `matchChunk` at each later offset
of the name, never crossing a separator. -/
def starLoop : Nat → List Char → List Char → List Char → Option (Option (List Char))
  | 0, _, _, _ => none
  | fuel + 1, chunk, pat, name =>
    match name with
    | [] => some none
    | x :: xs =>
      if x = '/' then some none
      else
        match matchChunk (chunk.length + 1) false chunk xs with
        | none => none
        | some none => starLoop fuel chunk pat xs
        | some (some t) =>
          if pat.isEmpty && !t.isEmpty then starLoop fuel chunk pat xs
          else some (some t)

/-- The syntactic-validity scan `Match` performs on the remaining pattern
before returning an unmatched result. -/
def failCheck : Nat → List Char → Option Bool
  | 0, _ => none
  | fuel + 1, pattern =>
    match pattern with
    | [] => some false
    | _ =>
      let sc := scanChunk pattern
      match matchChunk (sc.2.1.length + 1) false sc.2.1 [] with
      | none => none
      | _ => failCheck fuel sc.2.2

/-- The main `Pattern:` loop of `filepath.Match`. -/
def matchLoop : Nat → List Char → List Char → Option Bool
  | 0, _, _ => none
  | fuel + 1, pattern, name =>
    match pattern with
    | [] => some name.isEmpty
    | _ =>
      let sc := scanChunk pattern
      if sc.1 && sc.2.1.isEmpty then some (!name.contains '/')
      else
        match matchChunk (sc.2.1.length + 1) false sc.2.1 name with
        | none => none
        | some (some t) =>
          if t.isEmpty || !sc.2.2.isEmpty then matchLoop fuel sc.2.2 t
          else if sc.1 then
            match starLoop (name.length + 1) sc.2.1 sc.2.2 name with
            | none => none
            | some (some t2) => matchLoop fuel sc.2.2 t2
            | some none => failCheck (sc.2.2.length + 1) sc.2.2
          else failCheck (sc.2.2.length + 1) sc.2.2
        | some none =>
          if sc.1 then
            match starLoop (name.length + 1) sc.2.1 sc.2.2 name with
            | none => none
            | some (some t2) => matchLoop fuel sc.2.2 t2
            | some none => failCheck (sc.2.2.length + 1) sc.2.2
          else failCheck (sc.2.2.length + 1) sc.2.2

/-- Go: `filepath.Match pattern name`: `some matched`, or `none` for
`ErrBadPattern`. -/
def filepathMatch (pattern name : List Char) : Option Bool :=
  matchLoop (pattern.length + 1) pattern name

/-! ## Scanner options and the walker skip decision (scanner.go,
options.go) -/

/-- Go: `types.ScanOptions`. -/
structure ScanOptions where
  rootDir : List Char
  ignorePattern : List (List Char)
  maxFileSize : Int
  maxFiles : Int
deriving DecidableEq

/-- Go: `strings.HasSuffix(pattern, "/*")`. -/
def endsWithSlashStar (l : List Char) : Bool :=
  match l.reverse with
  | '*' :: '/' :: _ => true
  | _ => false

/-- Go: `strings.TrimSuffix(pattern, "/*")`, under the guard that the suffix
is present. -/
def trimSlashStar (l : List Char) : List Char :=
  l.dropLast.dropLast

/-- Go: `strings.HasPrefix`. -/
def strStartsWith : List Char → List Char → Bool
  | _, [] => true
  | [], _ :: _ => false
  | a :: s, b :: p => a == b && strStartsWith s p

/-- Go: `strings.Contains` on rune lists (used only to state that substring
containment is NOT a supported match form). -/
def containsSub : List Char → List Char → Bool
  | hay, needle =>
    match hay with
    | [] => needle.isEmpty
    | _ :: t => strStartsWith hay needle || containsSub t needle

/-- The pattern loop of `Scanner.shouldSkip`: first pattern that matches
the relative path — by `filepath.Match` with a nil error, or by the
directory-wildcard prefix rule — returns `(true, info.IsDir())`. -/
def skipPatternLoop : List (List Char) → List Char → Bool → Bool × Bool
  | [], _, _ => (false, false)
  | pattern :: rest, relPath, isDir =>
    if filepathMatch pattern relPath = some true then (true, isDir)
    else if endsWithSlashStar pattern &&
        strStartsWith relPath (trimSlashStar pattern ++ ['/']) then (true, isDir)
    else skipPatternLoop rest relPath isDir

/-- Go: `Scanner.shouldSkip`, returning `(skip, skipDir)`.  `relPath` models
`filepath.Rel(s.opts.RootDir, path)`, which succeeds for every path the
walker visits; `isDir` and `size` are `info.IsDir()` and `info.Size()`. -/
def shouldSkip (opts : ScanOptions) (relPath : List Char) (isDir : Bool) (size : Int) :
    Bool × Bool :=
  if !isDir && size > opts.maxFileSize then (true, false)
  else skipPatternLoop opts.ignorePattern relPath isDir

/-- One pattern's match condition in `shouldSkip`, as a Bool (glob match
with nil error, or directory-wildcard prefix). -/
def patMatches (pattern relPath : List Char) : Bool :=
  (filepathMatch pattern relPath == some true) ||
    (endsWithSlashStar pattern && strStartsWith relPath (trimSlashStar pattern ++ ['/']))

/-! ## Scanner construction (`New` with validating options) -/

/-- The two validation errors of options.go. -/
inductive ScanOptionErr where
  | negMaxFileSize
  | negMaxFiles
deriving DecidableEq

/-- The option defaults `New` starts from: `RootDir: "."`,
`MaxFileSize: 1 << 20`. -/
def defaultNewOptions : ScanOptions :=
  { rootDir := ['.'], ignorePattern := [], maxFileSize := 1048576, maxFiles := 0 }

/-- Go: `WithMaxFileSize`: reject negative sizes. -/
def withMaxFileSize (size : Int) (s : ScanOptions) : Except ScanOptionErr ScanOptions :=
  if size < 0 then .error .negMaxFileSize
  else .ok { s with maxFileSize := size }

/-- Go: `WithMaxFiles`: reject negative counts. -/
def withMaxFiles (count : Int) (s : ScanOptions) : Except ScanOptionErr ScanOptions :=
  if count < 0 then .error .negMaxFiles
  else .ok { s with maxFiles := count }

/-- The option-application loop of `New`: first failing option aborts. -/
def applyOptions : List (ScanOptions → Except ScanOptionErr ScanOptions) → ScanOptions →
    Except ScanOptionErr ScanOptions
  | [], s => .ok s
  | o :: rest, s =>
    match o s with
    | .error e => .error e
    | .ok s1 => applyOptions rest s1

/-- Go: `scanner.New`: build the defaults, then apply each option in order,
returning the first error with no scanner value. -/
def scannerNew (opts : List (ScanOptions → Except ScanOptionErr ScanOptions)) :
    Except ScanOptionErr ScanOptions :=
  applyOptions opts defaultNewOptions

end Pfzf

namespace Pfzf

example : chunkFn 20 5 (List.replicate 70 97) ≠ .ok [] := by decide

example : resLength (chunkFn 20 5 (List.replicate 70 97)) = some 6 := by decide

example : resLength (chunkFn 20 5 (List.replicate 67 97)) = some 6 := by decide

example : chunkFn (-1) 0 [97] = .panicked := by decide

example : chunkFn 0 0 [97, 98] = .ok [⟨[10], 1, 1, 0⟩, ⟨[10], 1, 1, 0⟩] := by decide

example : chunkFn 2 0 [97, 97, 97, 97] = .ok [⟨[97, 97, 10], 1, 1, 1⟩, ⟨[97, 97, 10], 1, 1, 1⟩] := by
  decide

example : resLength (chunkFn 20 5 (List.replicate 25 97)) = some 3 := by decide

/-! ## Arithmetic facts about the loop quantities -/

lemma winSize_nonneg {ms len pos : Int} (hms : 0 ≤ ms) (hlt : pos < len) :
    0 ≤ winSize ms len pos := by
  unfold winSize; split <;> omega

lemma winSize_add_le {ms len pos : Int} : pos + winSize ms len pos ≤ len := by
  unfold winSize; split <;> omega

lemma winSize_le_ms {ms len pos : Int} : winSize ms len pos ≤ ms := by
  unfold winSize; split <;> omega

lemma winSize_cases {ms len pos : Int} :
    pos + winSize ms len pos = len ∨ winSize ms len pos = ms := by
  unfold winSize; split <;> omega

lemma winSize_pos {ms len pos : Int} (hms : 0 < ms) (hlt : pos < len) :
    0 < winSize ms len pos := by
  unfold winSize; split <;> omega

lemma one_le_advanceOf {ov size : Int} : 1 ≤ advanceOf ov size := by
  unfold advanceOf; split <;> omega

lemma advanceOf_le_size {ov size : Int} (hov : 0 ≤ ov) (hsz : 1 ≤ size) :
    advanceOf ov size ≤ size := by
  unfold advanceOf; split <;> omega

lemma goSlice_eq_some {l : List Nat} {lo hi : Int} (h0 : 0 ≤ lo) (h1 : lo ≤ hi)
    (h2 : hi ≤ (l.length : Int)) : goSlice l lo hi = some (sliceI l lo hi) := by
  unfold goSlice sliceI
  rw [if_pos ⟨h0, h1, h2⟩]

lemma sliceI_length {l : List Nat} {lo hi : Int} (h0 : 0 ≤ lo) (_h1 : lo ≤ hi)
    (h2 : hi ≤ (l.length : Int)) : (sliceI l lo hi).length = (hi - lo).toNat := by
  unfold sliceI
  rw [List.length_take, List.length_drop]
  omega

/-! ## Correspondence: the loop returns exactly the chunks of its windows -/

lemma chunkLoop_eq_windows {ms ov : Int} {content : List Nat} (hms : 0 ≤ ms) :
    ∀ (fuel : Nat) (pos : Int), 0 ≤ pos →
      ((content.length : Int) - pos).toNat < fuel →
      chunkLoop ms ov content fuel pos =
        .ok ((loopWindows ms ov content fuel pos).map fun w => mkChunk (sliceI content w.1 w.2)) := by
  intro fuel
  induction fuel with
  | zero => intro pos _ h; omega
  | succ fuel ih =>
    intro pos hpos hfuel
    rw [chunkLoop, loopWindows]
    by_cases hlt : pos < (content.length : Int)
    · rw [if_pos hlt, if_pos hlt]
      dsimp only
      have hcs0 : 0 ≤ winSize ms (content.length : Int) pos := winSize_nonneg hms hlt
      have hcs1 : pos + winSize ms (content.length : Int) pos ≤ (content.length : Int) :=
        winSize_add_le
      rw [goSlice_eq_some hpos (by omega) hcs1]
      have hadv : 1 ≤ advanceOf ov (winSize ms (content.length : Int) pos) := one_le_advanceOf
      by_cases hbrk :
          pos + advanceOf ov (winSize ms (content.length : Int) pos) < (content.length : Int) ∧
            (content.length : Int) - (pos + advanceOf ov (winSize ms (content.length : Int) pos)) ≤ ov
      · simp only [if_pos hbrk]
        rw [goSlice_eq_some (by omega) (by omega) (by omega)]
        have hlen : (sliceI content
            (pos + advanceOf ov (winSize ms (content.length : Int) pos))
            (content.length : Int)).length =
            ((content.length : Int) -
              (pos + advanceOf ov (winSize ms (content.length : Int) pos))).toNat :=
          sliceI_length (by omega) (by omega) (by omega)
        dsimp only
        rw [if_pos (show (sliceI content
            (pos + advanceOf ov (winSize ms (content.length : Int) pos))
            (content.length : Int)).length > 0 by omega)]
        simp
      · simp only [if_neg hbrk]
        rw [ih (pos + advanceOf ov (winSize ms (content.length : Int) pos)) (by omega) (by omega)]
        simp
    · rw [if_neg hlt, if_neg hlt]
      simp

/-! ## Shape of the window list -/

lemma loopWindows_nil {ms ov : Int} {content : List Nat} {pos : Int}
    (hge : ¬pos < (content.length : Int)) :
    ∀ fuel, loopWindows ms ov content fuel pos = [] := by
  intro fuel
  cases fuel with
  | zero => rfl
  | succ fuel => rw [loopWindows, if_neg hge]

lemma loopWindows_cons {ms ov : Int} {content : List Nat} {fuel : Nat} {pos : Int}
    (hlt : pos < (content.length : Int)) :
    ∃ rest, loopWindows ms ov content (fuel + 1) pos =
      (pos, pos + winSize ms (content.length : Int) pos) :: rest := by
  rw [loopWindows, if_pos hlt]
  dsimp only
  by_cases hbrk :
      pos + advanceOf ov (winSize ms (content.length : Int) pos) < (content.length : Int) ∧
        (content.length : Int) - (pos + advanceOf ov (winSize ms (content.length : Int) pos)) ≤ ov
  · rw [if_pos hbrk]
    exact ⟨_, rfl⟩
  · rw [if_neg hbrk]
    exact ⟨_, rfl⟩

/-- All windows of the loop chain together and cover the content from the
first position up to its end (`covering`), provided `MaxSize` is positive
and `Overlap` is non-negative.  `prevEnd` generalises over a point known
to lie inside the first window. -/
lemma loopWindows_covering {ms ov : Int} {content : List Nat} (hms : 0 < ms) (hov : 0 ≤ ov) :
    ∀ (fuel : Nat) (pos prevEnd : Int), 0 ≤ pos →
      ((content.length : Int) - pos).toNat < fuel → pos < (content.length : Int) →
      pos ≤ prevEnd → prevEnd ≤ pos + winSize ms (content.length : Int) pos →
      covering (content.length : Int) prevEnd (loopWindows ms ov content fuel pos) := by
  intro fuel
  induction fuel with
  | zero => intro pos prevEnd _ h _ _ _; omega
  | succ fuel ih =>
    intro pos prevEnd hpos hfuel hlt hpe1 hpe2
    have hcs0 : 0 < winSize ms (content.length : Int) pos := winSize_pos hms hlt
    have hcs1 : pos + winSize ms (content.length : Int) pos ≤ (content.length : Int) :=
      winSize_add_le
    have hcsms : winSize ms (content.length : Int) pos ≤ ms := winSize_le_ms
    have hadv1 : 1 ≤ advanceOf ov (winSize ms (content.length : Int) pos) := one_le_advanceOf
    have hadv2 : advanceOf ov (winSize ms (content.length : Int) pos) ≤
        winSize ms (content.length : Int) pos := advanceOf_le_size hov (by omega)
    rw [loopWindows, if_pos hlt]
    dsimp only
    by_cases hbrk :
        pos + advanceOf ov (winSize ms (content.length : Int) pos) < (content.length : Int) ∧
          (content.length : Int) - (pos + advanceOf ov (winSize ms (content.length : Int) pos)) ≤ ov
    · rw [if_pos hbrk]
      refine ⟨hpos, hpe1, hpe2, hcs1, ?_⟩
      exact ⟨by omega, by omega, by omega, by omega, rfl⟩
    · rw [if_neg hbrk]
      refine ⟨hpos, hpe1, hpe2, hcs1, ?_⟩
      by_cases hlt1 : pos + advanceOf ov (winSize ms (content.length : Int) pos) <
          (content.length : Int)
      · refine ih _ _ (by omega) (by omega) hlt1 (by omega) ?_
        have h2 := @winSize_cases ms (content.length : Int)
          (pos + advanceOf ov (winSize ms (content.length : Int) pos))
        omega
      · rw [loopWindows_nil hlt1]
        show pos + winSize ms (content.length : Int) pos = (content.length : Int)
        omega

/-- Every window except possibly the last has exactly the clamped loop
size `winSize`; in particular its width is at most `MaxSize`. -/
lemma loopWindows_sizes {ms ov : Int} {content : List Nat} :
    ∀ (fuel : Nat) (pos : Int),
      ∀ w ∈ (loopWindows ms ov content fuel pos).dropLast,
        w.2 = w.1 + winSize ms (content.length : Int) w.1 := by
  intro fuel
  induction fuel with
  | zero => intro pos w hw; simp [loopWindows] at hw
  | succ fuel ih =>
    intro pos w hw
    by_cases hlt : pos < (content.length : Int)
    · rw [loopWindows, if_pos hlt] at hw
      dsimp only at hw
      by_cases hbrk :
          pos + advanceOf ov (winSize ms (content.length : Int) pos) < (content.length : Int) ∧
            (content.length : Int) - (pos + advanceOf ov (winSize ms (content.length : Int) pos)) ≤ ov
      · rw [if_pos hbrk] at hw
        simp only [List.dropLast, List.mem_singleton] at hw
        subst hw
        rfl
      · rw [if_neg hbrk] at hw
        rcases hr : loopWindows ms ov content fuel
            (pos + advanceOf ov (winSize ms (content.length : Int) pos)) with _ | ⟨w0, rest⟩
        · rw [hr] at hw
          simp [List.dropLast] at hw
        · rw [hr] at hw
          rw [List.dropLast_cons₂] at hw
          rcases List.mem_cons.mp hw with h | h
          · subst h; rfl
          · have := ih (pos + advanceOf ov (winSize ms (content.length : Int) pos)) w
            rw [hr] at this
            exact this h
    · rw [loopWindows_nil hlt] at hw
      simp at hw

/-- Consecutive windows: the next window starts exactly `advanceOf ov
(width of the previous window)` after the previous start. -/
lemma loopWindows_chain {ms ov : Int} {content : List Nat} :
    ∀ (fuel : Nat) (pos : Int), 0 ≤ pos →
      ((content.length : Int) - pos).toNat < fuel →
      List.Chain' (fun v w => w.1 = v.1 + advanceOf ov (v.2 - v.1))
        (loopWindows ms ov content fuel pos) := by
  intro fuel
  induction fuel with
  | zero => intro pos _ h; omega
  | succ fuel ih =>
    intro pos hpos hfuel
    by_cases hlt : pos < (content.length : Int)
    · rw [loopWindows, if_pos hlt]
      dsimp only
      have hadv1 : 1 ≤ advanceOf ov (winSize ms (content.length : Int) pos) := one_le_advanceOf
      by_cases hbrk :
          pos + advanceOf ov (winSize ms (content.length : Int) pos) < (content.length : Int) ∧
            (content.length : Int) - (pos + advanceOf ov (winSize ms (content.length : Int) pos)) ≤ ov
      · rw [if_pos hbrk]
        rw [List.chain'_cons]
        constructor
        · rw [add_sub_cancel_left]
        · exact List.chain'_singleton _
      · rw [if_neg hbrk]
        by_cases hlt1 : pos + advanceOf ov (winSize ms (content.length : Int) pos) <
            (content.length : Int)
        · obtain ⟨rest, hr⟩ := @loopWindows_cons ms ov content (fuel - 1) _ hlt1
          have hfuel1 : fuel - 1 + 1 = fuel := by omega
          rw [hfuel1] at hr
          rw [hr, List.chain'_cons]
          constructor
          · rw [add_sub_cancel_left]
          · rw [← hr]
            exact ih _ (by omega) (by omega)
        · rw [loopWindows_nil hlt1]
          exact List.chain'_singleton _
    · rw [loopWindows_nil hlt]
      exact List.chain'_nil

/-! ## Trimming only shortens -/

lemma trimLeftBytes_length_le (l : List Nat) : (trimLeftBytes l).length ≤ l.length := by
  induction l with
  | nil => simp [trimLeftBytes]
  | cons b bs ih =>
    rw [trimLeftBytes]
    split
    · simp; omega
    · simp

lemma trimSpaceBytes_length_le (l : List Nat) : (trimSpaceBytes l).length ≤ l.length := by
  unfold trimSpaceBytes
  rw [List.length_reverse]
  calc (trimLeftBytes (trimLeftBytes l).reverse).length
      ≤ (trimLeftBytes l).reverse.length := trimLeftBytes_length_le _
    _ = (trimLeftBytes l).length := List.length_reverse _
    _ ≤ l.length := trimLeftBytes_length_le l

/-! ## Stitching chained windows reconstructs the content -/

lemma take_stitch_take {l : List Nat} {a b c : Nat} (hab : a ≤ b) (hbc : b ≤ c) :
    l.take b ++ ((l.drop a).take (c - a)).drop (b - a) = l.take c := by
  rw [List.drop_take, List.drop_drop]
  have h1 : a + (b - a) = b := by omega
  have h2 : c - a - (b - a) = c - b := by omega
  rw [h1, h2]
  rw [show c = b + (c - b) by omega, List.take_add]
  have h3 : b + (c - b) - b = c - b := by omega
  rw [h3]

lemma stitch_covering {content : List Nat} :
    ∀ (ws : List (Int × Int)) (prevEnd : Int), 0 ≤ prevEnd →
      covering (content.length : Int) prevEnd ws →
      content.take prevEnd.toNat ++ stitchFrom content prevEnd ws = content := by
  intro ws
  induction ws with
  | nil =>
    intro prevEnd _ hcov
    have h : prevEnd = (content.length : Int) := hcov
    rw [h]
    simp [stitchFrom]
  | cons w rest ih =>
    intro prevEnd hpe hcov
    obtain ⟨h0, h1, h2, h3, hrec⟩ := hcov
    rw [stitchFrom, ← List.append_assoc]
    have hslice : content.take prevEnd.toNat ++
        (sliceI content w.1 w.2).drop (prevEnd - w.1).toNat = content.take w.2.toNat := by
      unfold sliceI
      have heq : (prevEnd - w.1).toNat = prevEnd.toNat - w.1.toNat := by omega
      have heq2 : (w.2 - w.1).toNat = w.2.toNat - w.1.toNat := by omega
      rw [heq, heq2]
      exact take_stitch_take (by omega) (by omega)
    rw [hslice]
    exact ih w.2 (by omega) hrec

/-! ## Top-level correspondence and auxiliary facts -/

lemma sliceI_length_le {l : List Nat} {lo hi : Int} :
    (sliceI l lo hi).length ≤ (hi - lo).toNat := by
  unfold sliceI
  rw [List.length_take]
  omega

lemma sliceI_full {l : List Nat} : sliceI l 0 (l.length : Int) = l := by
  unfold sliceI
  simp

/-- Go: `Chunker.Chunk` returns exactly the `mkChunk` image of its ghost
windows, for every non-negative `MaxSize` and arbitrary `Overlap`. -/
lemma chunkFn_eq_windows {ms ov : Int} {content : List Nat} (hms : 0 ≤ ms) :
    chunkFn ms ov content =
      .ok ((chunkWindows ms ov content).map fun w => mkChunk (sliceI content w.1 w.2)) := by
  unfold chunkFn chunkWindows
  by_cases h0 : content.length = 0
  · rw [if_pos h0, if_pos h0]
    rfl
  · rw [if_neg h0, if_neg h0]
    by_cases h1 : 0 < ms ∧ (content.length : Int) ≤ ms
    · rw [if_pos h1, if_pos h1]
      simp [sliceI_full]
    · rw [if_neg h1, if_neg h1]
      exact chunkLoop_eq_windows hms _ 0 le_rfl (by omega)

/-- With `MaxSize = 0` and `Overlap = 0` the loop emits one empty-bodied
chunk (content `"\n"`) per remaining byte. -/
lemma chunkLoop_zero_zero {content : List Nat} :
    ∀ (fuel : Nat) (pos : Int), 0 ≤ pos → ((content.length : Int) - pos).toNat < fuel →
      chunkLoop 0 0 content fuel pos =
        .ok (List.replicate ((content.length : Int) - pos).toNat ⟨[10], 1, 1, 0⟩) := by
  intro fuel
  induction fuel with
  | zero => intro pos _ h; omega
  | succ fuel ih =>
    intro pos hpos hfuel
    rw [chunkLoop]
    by_cases hlt : pos < (content.length : Int)
    · rw [if_pos hlt]
      dsimp only
      have hws : winSize 0 (content.length : Int) pos = 0 := by
        unfold winSize; split <;> omega
      rw [hws]
      rw [goSlice_eq_some hpos (by omega) (by omega)]
      have hsl : sliceI content pos (pos + 0) = [] := by
        unfold sliceI
        simp
      rw [hsl]
      dsimp only
      have hadv : advanceOf 0 (0 : Int) = 1 := by unfold advanceOf; norm_num
      rw [hadv]
      have hbrk : ¬(pos + 1 < (content.length : Int) ∧ (content.length : Int) - (pos + 1) ≤ 0) := by
        omega
      rw [if_neg hbrk]
      rw [ih (pos + 1) (by omega) (by omega)]
      have hrep : ((content.length : Int) - pos).toNat =
          ((content.length : Int) - (pos + 1)).toNat + 1 := by omega
      rw [hrep, List.replicate_succ]
      rfl
    · rw [if_neg hlt]
      have h0 : ((content.length : Int) - pos).toNat = 0 := by omega
      rw [h0]
      rfl

/-! ## Claim theorems for the chunker

Each theorem below settles one claim.  Claim theorems are self-contained:
none is used by any other declaration except its own witness. -/

/-- C1 (corrected).  For `0 ≤ overlap < maxSize`, `Chunk` succeeds, its
chunks are exactly the trimmed (newline-terminated) slices of the ghost
byte windows, and concatenating the windows after removing from each
subsequent window the part overlapping its predecessor (`stitched`)
reconstructs the content exactly — no byte is dropped.  The original
claim quantified over every `overlap < maxSize`; a negative overlap makes
the loop skip bytes, so the hypothesis `0 ≤ overlap` had to be added (see
the counterexample, where byte 99 of the content appears in no chunk). -/
theorem chunk_reconstructs_content (C : List Nat) (ms ov : Int)
    (hov : 0 ≤ ov) (hlt : ov < ms) :
    chunkFn ms ov C = .ok ((chunkWindows ms ov C).map fun w => mkChunk (sliceI C w.1 w.2)) ∧
    stitched C (chunkWindows ms ov C) = C := by
  have hms : 0 ≤ ms := by omega
  refine ⟨chunkFn_eq_windows hms, ?_⟩
  unfold stitched chunkWindows
  by_cases h0 : C.length = 0
  · rw [if_pos h0]
    unfold stitchFrom
    exact (List.length_eq_zero.mp h0).symm
  · rw [if_neg h0]
    by_cases h1 : 0 < ms ∧ (C.length : Int) ≤ ms
    · rw [if_pos h1]
      simp [stitchFrom, sliceI_full]
    · rw [if_neg h1]
      have hws : 0 < winSize ms (C.length : Int) 0 := winSize_pos (by omega) (by omega)
      have hcov := @loopWindows_covering ms ov C
        (by omega) hov (C.length + 1) 0 0 le_rfl (by omega) (by omega) le_rfl (by omega)
      have := stitch_covering (loopWindows ms ov C (C.length + 1) 0) 0 le_rfl hcov
      simpa using this

/-- Witness for C1 at `maxSize = 20`, `overlap = 5`, a 70-byte content. -/
theorem chunk_reconstructs_content_witness :
    chunkFn 20 5 (List.replicate 70 97) =
      .ok ((chunkWindows 20 5 (List.replicate 70 97)).map
        fun w => mkChunk (sliceI (List.replicate 70 97) w.1 w.2)) ∧
    stitched (List.replicate 70 97) (chunkWindows 20 5 (List.replicate 70 97)) =
      List.replicate 70 97 :=
  chunk_reconstructs_content (List.replicate 70 97) 20 5 (by norm_num) (by norm_num)

/-- Counterexample to C1 as stated: with `overlap = -1 < 2 = maxSize` and
content `[97, 98, 99, 100]`, byte 99 occurs in the content but in no
returned chunk — it is permanently dropped (and it is not white space, so
trimming cannot account for it). -/
theorem chunk_reconstructs_content_cex :
    (-1 : Int) < 2 ∧
    chunkFn 2 (-1) [97, 98, 99, 100] =
      .ok [⟨[97, 98, 10], 1, 1, 1⟩, ⟨[100, 10], 1, 1, 1⟩] ∧
    (99 : Nat) ∈ [97, 98, 99, 100] ∧
    ∀ c ∈ [(⟨[97, 98, 10], 1, 1, 1⟩ : Chunk), ⟨[100, 10], 1, 1, 1⟩],
      (99 : Nat) ∉ c.content := by decide

/-- C2 (corrected).  For every non-negative `maxSize`, every chunk except
the final one has a `Content` of at most `maxSize + 1` bytes — the body
sliced from the content is at most `maxSize` bytes, and the code appends
one newline byte after trimming — and every chunk's `Content` (the final
one included) is non-empty.  The original bound `maxSize` on the content
field fails because of the appended newline (see the counterexample). -/
theorem chunk_size_invariant (ms ov : Int) (C : List Nat) (cs : List Chunk)
    (hms : 0 ≤ ms) (h : chunkFn ms ov C = .ok cs) :
    (∀ c ∈ cs.dropLast, c.content.length ≤ ms.toNat + 1) ∧ ∀ c ∈ cs, c.content ≠ [] := by
  rw [chunkFn_eq_windows hms] at h
  have hcs : cs = (chunkWindows ms ov C).map fun w => mkChunk (sliceI C w.1 w.2) := by
    cases h
    rfl
  subst hcs
  constructor
  · intro c hc
    rw [← List.map_dropLast] at hc
    obtain ⟨w, hw, rfl⟩ := List.mem_map.mp hc
    have hsize : (w.2 - w.1).toNat ≤ ms.toNat := by
      unfold chunkWindows at hw
      split at hw
      · simp at hw
      · split at hw
        · simp [List.dropLast] at hw
        · have heq := @loopWindows_sizes ms ov C (C.length + 1) 0 w hw
          have hle : winSize ms (C.length : Int) w.1 ≤ ms := winSize_le_ms
          omega
    show (trimSpaceBytes (sliceI C w.1 w.2) ++ [10]).length ≤ ms.toNat + 1
    rw [List.length_append]
    have h1 := trimSpaceBytes_length_le (sliceI C w.1 w.2)
    have h2 := @sliceI_length_le C w.1 w.2
    simp only [List.length_cons, List.length_nil]
    omega
  · intro c hc
    obtain ⟨w, hw, rfl⟩ := List.mem_map.mp hc
    simp [mkChunk]

/-- Witness for C2 at `maxSize = 2`, `overlap = 0`, content `aaaa`. -/
theorem chunk_size_invariant_witness :
    (∀ c ∈ ([⟨[97, 97, 10], 1, 1, 1⟩, ⟨[97, 97, 10], 1, 1, 1⟩] : List Chunk).dropLast,
      c.content.length ≤ (2 : Int).toNat + 1) ∧
    ∀ c ∈ ([⟨[97, 97, 10], 1, 1, 1⟩, ⟨[97, 97, 10], 1, 1, 1⟩] : List Chunk), c.content ≠ [] :=
  chunk_size_invariant 2 0 [97, 97, 97, 97] _ (by norm_num) (by decide)

/-- Counterexample to C2 as stated: with `maxSize = 2` and content
`aaaa`, the first (non-final) chunk's `Content` is `"aa\n"`, three bytes,
which exceeds `maxSize`. -/
theorem chunk_size_invariant_cex :
    chunkFn 2 0 [97, 97, 97, 97] =
      .ok [⟨[97, 97, 10], 1, 1, 1⟩, ⟨[97, 97, 10], 1, 1, 1⟩] ∧
    2 < (Chunk.mk [97, 97, 10] 1 1 1).content.length := by decide

/-- C3 (corrected).  Empty content yields the empty sequence, and every
NON-empty content fitting within `maxSize` yields exactly one chunk whose
`Content` is the whitespace-trimmed whole followed by one newline.  The
original claim's second half, quantified over every content with
`len(C) ≤ maxSize`, fails at the empty content (which satisfies
`0 ≤ maxSize` but yields zero chunks, per the claim's own first half);
the hypothesis `C ≠ []` had to be added. -/
theorem chunk_single_fast_path (C : List Nat) (ms ov : Int) (hne : C ≠ [])
    (hle : (C.length : Int) ≤ ms) :
    chunkFn ms ov C = .ok [mkChunk C] ∧ chunkFn ms ov [] = .ok [] := by
  constructor
  · have h0 : ¬C.length = 0 := fun h => hne (List.length_eq_zero.mp h)
    have hpos : 0 < ms := by omega
    unfold chunkFn
    rw [if_neg h0, if_pos ⟨hpos, hle⟩]
  · rfl

/-- Witness for C3 at content `[97, 98]`, `maxSize = 5`. -/
theorem chunk_single_fast_path_witness :
    chunkFn 5 0 [97, 98] = .ok [mkChunk [97, 98]] ∧ chunkFn 5 0 [] = .ok [] :=
  chunk_single_fast_path [97, 98] 5 0 (by decide) (by decide)

/-- Counterexample to C3 as stated: the empty content has length
`0 ≤ 20 = maxSize` yet `Chunk` returns zero chunks, not one. -/
theorem chunk_single_fast_path_cex :
    ((([] : List Nat).length : Int)) ≤ 20 ∧ chunkFn 20 5 [] = .ok [] ∧
    resLength (chunkFn 20 5 []) ≠ some 1 := by decide

/-- C4 (corrected).  After emitting a chunk the loop advances `pos` by
exactly `max(1, chunkSize - overlap)` where `chunkSize` is the CLAMPED
window size `min(maxSize, contentLen - pos)` (`winSize`): consecutive
ghost windows start exactly `advanceOf ov (width of previous window)`
apart, and every non-final window's width is exactly `winSize`.  This
equals the claimed `max(1, maxSize - overlap)` whenever a full window
remains, but not when the last clamped window is followed by the
final-tail chunk (see the counterexample). -/
theorem chunk_advance_rule (ms ov : Int) (C : List Nat) (hms : 0 ≤ ms) :
    chunkFn ms ov C = .ok ((chunkWindows ms ov C).map fun w => mkChunk (sliceI C w.1 w.2)) ∧
    List.Chain' (fun v w => w.1 = v.1 + advanceOf ov (v.2 - v.1)) (chunkWindows ms ov C) ∧
    ∀ w ∈ (chunkWindows ms ov C).dropLast, w.2 = w.1 + winSize ms (C.length : Int) w.1 := by
  refine ⟨chunkFn_eq_windows hms, ?_, ?_⟩
  · unfold chunkWindows
    split
    · exact List.chain'_nil
    · split
      · exact List.chain'_singleton _
      · exact loopWindows_chain _ 0 le_rfl (by omega)
  · intro w hw
    unfold chunkWindows at hw
    split at hw
    · simp at hw
    · split at hw
      · simp [List.dropLast] at hw
      · exact loopWindows_sizes _ 0 w hw

/-- Witness for C4 at `maxSize = 20`, `overlap = 5`, a 25-byte content. -/
theorem chunk_advance_rule_witness :
    chunkFn 20 5 (List.replicate 25 97) =
      .ok ((chunkWindows 20 5 (List.replicate 25 97)).map
        fun w => mkChunk (sliceI (List.replicate 25 97) w.1 w.2)) ∧
    List.Chain' (fun v w => w.1 = v.1 + advanceOf 5 (v.2 - v.1))
      (chunkWindows 20 5 (List.replicate 25 97)) ∧
    ∀ w ∈ (chunkWindows 20 5 (List.replicate 25 97)).dropLast,
      w.2 = w.1 + winSize 20 ((List.replicate 25 97).length : Int) w.1 :=
  chunk_advance_rule 20 5 (List.replicate 25 97) (by norm_num)

/-- Counterexample to C4 as stated: for a 25-byte content with
`maxSize = 20`, `overlap = 5`, the loop's windows are
`[0,20), [15,25), [20,25)`: after the second (clamped, 10-byte) chunk,
`pos` advances by `20 - 15 = 5`, not by
`max(1, maxSize - overlap) = advanceOf 5 20 = 15`. -/
theorem chunk_advance_rule_cex :
    chunkWindows 20 5 (List.replicate 25 97) = [(0, 20), (15, 25), (20, 25)] ∧
    resLength (chunkFn 20 5 (List.replicate 25 97)) = some 3 ∧
    (20 : Int) - 15 ≠ advanceOf 5 20 := by decide

/-- C5 (corrected).  For every non-negative `maxSize`, every `overlap`
(including `overlap ≥ maxSize`, where the advance floor of 1 byte applies)
and every content, `Chunk` terminates normally with a finite chunk list.
The original claim's "every options value" fails for negative `maxSize`,
where the Go slice expression `content[pos : pos+chunkSize]` has
`pos + chunkSize < pos` and panics at run time (see the counterexample). -/
theorem chunk_terminates (ms ov : Int) (C : List Nat) (hms : 0 ≤ ms) :
    ∃ cs, chunkFn ms ov C = .ok cs :=
  ⟨_, chunkFn_eq_windows hms⟩

/-- Witness for C5 at `maxSize = 20`, `overlap = 25 ≥ maxSize`. -/
theorem chunk_terminates_witness :
    ∃ cs, chunkFn 20 25 (List.replicate 30 97) = .ok cs :=
  chunk_terminates 20 25 (List.replicate 30 97) (by norm_num)

/-- Counterexample to C5 as stated: `maxSize = -1` on one byte of content
reaches the loop and panics in the slice expression instead of returning
a chunk sequence. -/
theorem chunk_terminates_cex :
    chunkFn (-1) 0 [97] = .panicked := by decide

/-- C8 (corrected).  For EVERY 70-byte content with `maxSize = 20`,
`overlap = 5`, `Chunk` returns exactly six chunks — the trimmed,
newline-terminated slices of the windows
`[0,20), [15,35), [30,50), [45,65), [60,70), [65,70)` — not the four
chunks the claim states.  Each window is at most 20 bytes wide, the final
window covers the tail, and each window starts 15 bytes after its
predecessor except the last (the deliberate 5-byte overlap appears
verbatim at trimmed-boundary level: window `k+1` re-reads the last bytes
of window `k`). -/
theorem chunk_scenario_70 (C : List Nat) (h : C.length = 70) :
    chunkFn 20 5 C =
      .ok (([(0, 20), (15, 35), (30, 50), (45, 65), (60, 70), (65, 70)] : List (Int × Int)).map
        fun w => mkChunk (sliceI C w.1 w.2)) := by
  rw [chunkFn_eq_windows (by norm_num)]
  have hw : chunkWindows 20 5 C =
      [(0, 20), (15, 35), (30, 50), (45, 65), (60, 70), (65, 70)] := by
    unfold chunkWindows
    rw [if_neg (by omega), if_neg (by simp [h]), h]
    have s0 : loopWindows 20 5 C (70 + 1) 0 = (0, 20) :: loopWindows 20 5 C 70 15 := by
      rw [loopWindows]
      norm_num [winSize, advanceOf, h]
    have s1 : loopWindows 20 5 C 70 15 = (15, 35) :: loopWindows 20 5 C 69 30 := by
      show loopWindows 20 5 C (69 + 1) 15 = _
      rw [loopWindows]
      norm_num [winSize, advanceOf, h]
    have s2 : loopWindows 20 5 C 69 30 = (30, 50) :: loopWindows 20 5 C 68 45 := by
      show loopWindows 20 5 C (68 + 1) 30 = _
      rw [loopWindows]
      norm_num [winSize, advanceOf, h]
    have s3 : loopWindows 20 5 C 68 45 = (45, 65) :: loopWindows 20 5 C 67 60 := by
      show loopWindows 20 5 C (67 + 1) 45 = _
      rw [loopWindows]
      norm_num [winSize, advanceOf, h]
    have s4 : loopWindows 20 5 C 67 60 = [(60, 70), (65, 70)] := by
      show loopWindows 20 5 C (66 + 1) 60 = _
      rw [loopWindows]
      norm_num [winSize, advanceOf, h]
    rw [s0, s1, s2, s3, s4]
  rw [hw]

/-- Witness for C8 at the all-`a` 70-byte content. -/
theorem chunk_scenario_70_witness :
    chunkFn 20 5 (List.replicate 70 97) =
      .ok (([(0, 20), (15, 35), (30, 50), (45, 65), (60, 70), (65, 70)] : List (Int × Int)).map
        fun w => mkChunk (sliceI (List.replicate 70 97) w.1 w.2)) :=
  chunk_scenario_70 (List.replicate 70 97) (by decide)

/-- Counterexample to C8 as stated: a concrete 70-byte content yields six
chunks, not four.  (The repository's own chunker test was likewise
updated to the larger count: 67 bytes → 6 chunks.) -/
theorem chunk_scenario_70_cex :
    resLength (chunkFn 20 5 (List.replicate 70 97)) = some 6 ∧
    resLength (chunkFn 20 5 (List.replicate 70 97)) ≠ some 4 := by decide

/-- C10 (confirmed).  With `maxSize = 0`, `overlap = 0` and non-empty
content, the positive-`MaxSize` fast path is bypassed and the loop emits
exactly `len(C)` chunks, each with `Content` a single newline byte (the
empty body trimmed, plus the appended newline), token count 0, and a nil
error (modelled by the `ok` result). -/
theorem chunk_zero_maxsize (C : List Nat) (hne : C ≠ []) :
    chunkFn 0 0 C = .ok (List.replicate C.length ⟨[10], 1, 1, 0⟩) := by
  have h0 : ¬C.length = 0 := fun h => hne (List.length_eq_zero.mp h)
  unfold chunkFn
  rw [if_neg h0, if_neg (by norm_num)]
  have h := @chunkLoop_zero_zero C (C.length + 1) 0 le_rfl (by omega)
  simpa using h

/-- Witness for C10 at content `[97, 98]`. -/
theorem chunk_zero_maxsize_witness :
    chunkFn 0 0 [97, 98] = .ok (List.replicate 2 ⟨[10], 1, 1, 0⟩) :=
  chunk_zero_maxsize [97, 98] (by decide)

/-! ## Binary classification: support lemma and claim theorem -/

lemma countNonPrintable_eq_countP (l : List Nat) :
    countNonPrintable l = l.countP isNonPrintable := by
  have haux : ∀ (l : List Nat) (acc : Nat),
      l.foldl (fun acc b => if isNonPrintable b then acc + 1 else acc) acc =
        acc + l.countP isNonPrintable := by
    intro l
    induction l with
    | nil => intro acc; simp
    | cons b bs ih =>
      intro acc
      rw [List.foldl_cons, ih, List.countP_cons]
      by_cases hb : isNonPrintable b
      · simp [hb]
        omega
      · simp [hb]
  unfold countNonPrintable
  rw [haux l 0]
  omega

/-- C6 (confirmed).  Binary classification depends on at most the first
512 bytes of the file; the empty sample classifies as text; and the file
classifies as binary exactly when the sampled bytes that are neither
graphic nor white space (zero bytes included) number strictly more than
30% of the sample.  In particular two files sharing their first 512 bytes
classify identically. -/
theorem binary_classification (f g : List Nat) (h : f.take 512 = g.take 512) :
    isBinaryFile f = isBinaryFile g ∧
    isBinaryFile [] = false ∧
    (isBinaryFile f = true ↔
      f.take 512 ≠ [] ∧ 3 * (f.take 512).length < 10 * (f.take 512).countP isNonPrintable) := by
  refine ⟨?_, rfl, ?_⟩
  · simp only [isBinaryFile, binaryCheckSize]
    simp only [h]
  · simp only [isBinaryFile, binaryCheckSize]
    by_cases h0 : (f.take 512).length = 0
    · rw [if_pos h0]
      simp [List.length_eq_zero.mp h0]
    · rw [if_neg h0]
      simp only [countNonPrintable_eq_countP, gt_iff_lt, decide_eq_true_eq]
      constructor
      · intro hgt
        exact ⟨fun hc => h0 (by simp [hc]), hgt⟩
      · intro hand
        exact hand.2

set_option maxRecDepth 4000 in
/-- Witness for C6: a 520-byte file of zeros and a file with the same
512-zero prefix but a different tail classify identically (both binary). -/
theorem binary_classification_witness :
    isBinaryFile (List.replicate 520 0) =
      isBinaryFile (List.replicate 512 0 ++ List.replicate 8 97) ∧
    isBinaryFile [] = false ∧
    (isBinaryFile (List.replicate 520 0) = true ↔
      (List.replicate 520 0).take 512 ≠ [] ∧
        3 * ((List.replicate 520 0).take 512).length <
          10 * ((List.replicate 520 0).take 512).countP isNonPrintable) :=
  binary_classification (List.replicate 520 0) (List.replicate 512 0 ++ List.replicate 8 97)
    (by decide)

end Pfzf

namespace Pfzf

example : filepathMatch (['*', '.', 't', 'x', 't']) (['m', 'y', '.', 't', 'x', 't']) = some true := by decide

example : filepathMatch (['g', 'i', 't']) (['m', 'y', 'g', 'i', 't']) = some false := by decide

example : filepathMatch (['g', 'i', 't']) (['g', 'i', 't']) = some true := by decide

example : filepathMatch (['i', 'g', 'n', '/', '*']) (['i', 'g', 'n', '/', 't']) = some true := by decide

example : filepathMatch (['*', '.', 't', 'x', 't']) (['a', '/', 'b', '.', 't', 'x', 't']) = some false := by decide

example : filepathMatch (['[', 'a', '-', 'c', ']', 'x']) (['b', 'x']) = some true := by decide

example : filepathMatch (['[', 'a', '-', 'c', ']', 'x']) (['d', 'x']) = some false := by decide

example : filepathMatch (['[']) (['x']) = none := by decide

example : filepathMatch (['*']) (['a', 'b']) = some true := by decide

example : filepathMatch (['*']) (['a', '/', 'b']) = some false := by decide

example : filepathMatch (['a', '*', 'c']) (['a', 'b', 'b', 'c']) = some true := by decide

example : filepathMatch (['?', 'b']) (['a', 'b']) = some true := by decide

example : filepathMatch (['?', 'b']) (['/', 'b']) = some false := by decide

example : filepathMatch (['[', '^', 'a', ']', 'x']) (['b', 'x']) = some true := by decide

example : filepathMatch (['[', '^', 'a', ']', 'x']) (['a', 'x']) = some false := by decide

example : filepathMatch (['a', '\\', '*', 'b']) (['a', '*', 'b']) = some true := by decide

example : filepathMatch (['a', '\\', '*', 'b']) (['a', 'x', 'b']) = some false := by decide

/-! ## Claim theorems for the walker skip decision and construction -/

/-- C7 (corrected).  The skip decision applies the size filter first
(non-directories over `maxFileSize` are skipped without pruning), then
tries the ignore patterns against the rootDir-relative path; a path is
skipped iff SOME pattern matches it, where the supported match forms are
exact glob (`filepath.Match` on the whole relative path, with a nil
error) and directory-wildcard suffix (`dir/*` as a `dir/` prefix test);
a matched directory yields `skipDir = true` (descent pruned) while a
matched file yields `skipDir = false` (only that file excluded).
Substring containment, which the original claim lists as a third match
form, is NOT supported (see the counterexample). -/
theorem walker_skip_decision (opts : ScanOptions) (relPath : List Char) (isDir : Bool)
    (size : Int) :
    shouldSkip opts relPath isDir size =
      if isDir = false ∧ opts.maxFileSize < size then (true, false)
      else if ∃ p ∈ opts.ignorePattern, patMatches p relPath = true then (true, isDir)
      else (false, false) := by
  unfold shouldSkip
  have hloop : ∀ pats : List (List Char),
      skipPatternLoop pats relPath isDir =
        if ∃ p ∈ pats, patMatches p relPath = true then (true, isDir) else (false, false) := by
    intro pats
    induction pats with
    | nil => simp [skipPatternLoop]
    | cons p rest ih =>
      rw [skipPatternLoop]
      by_cases h1 : filepathMatch p relPath = some true
      · rw [if_pos h1]
        rw [if_pos ⟨p, List.mem_cons_self p rest, by simp [patMatches, h1]⟩]
      · rw [if_neg h1]
        by_cases h2 : (endsWithSlashStar p &&
            strStartsWith relPath (trimSlashStar p ++ ['/'])) = true
        · rw [if_pos h2]
          rw [if_pos ⟨p, List.mem_cons_self p rest, by simp [patMatches, h2]⟩]
        · rw [if_neg h2]
          rw [ih]
          have hp : ¬patMatches p relPath = true := by
            simp only [patMatches, Bool.or_eq_true, beq_iff_eq]
            push_neg
            exact ⟨h1, by simpa using h2⟩
          by_cases hex : ∃ q ∈ rest, patMatches q relPath = true
          · rw [if_pos hex, if_pos ?_]
            obtain ⟨q, hq, hqm⟩ := hex
            exact ⟨q, List.mem_cons_of_mem p hq, hqm⟩
          · rw [if_neg hex, if_neg ?_]
            intro ⟨q, hq, hqm⟩
            rcases List.mem_cons.mp hq with rfl | hq2
            · exact hp hqm
            · exact hex ⟨q, hq2, hqm⟩
  by_cases hsz : !isDir && size > opts.maxFileSize
  · rw [if_pos hsz, if_pos ?_]
    simp only [Bool.and_eq_true, Bool.not_eq_true', gt_iff_lt, decide_eq_true_eq] at hsz
    exact ⟨hsz.1, hsz.2⟩
  · rw [if_neg hsz, if_neg ?_, hloop]
    simp only [Bool.and_eq_true, Bool.not_eq_true', gt_iff_lt, decide_eq_true_eq] at hsz
    intro hc
    exact hsz ⟨hc.1, hc.2⟩

/-- Counterexample to C7 as stated: pattern `git` is contained as a
substring in the relative path `mygit.txt` (a small regular file), yet
`shouldSkip` does not skip it — substring containment is not a supported
match form of the scanner's walker.  (The glob and directory-wildcard
forms do work, as the other two conjuncts show.) -/
theorem walker_skip_decision_cex :
    containsSub ['m', 'y', 'g', 'i', 't', '.', 't', 'x', 't'] ['g', 'i', 't'] = true ∧
    shouldSkip ⟨['.'], [['g', 'i', 't']], 100, 0⟩
      ['m', 'y', 'g', 'i', 't', '.', 't', 'x', 't'] false 1 = (false, false) ∧
    shouldSkip ⟨['.'], [['*', '.', 't', 'x', 't']], 100, 0⟩
      ['m', 'y', 'g', 'i', 't', '.', 't', 'x', 't'] false 1 = (true, false) ∧
    shouldSkip ⟨['.'], [['d', '/', '*']], 100, 0⟩ ['d', '/', 's'] true 1 = (true, true) := by
  decide

/-- C9 (confirmed).  `New` with `WithMaxFileSize` and/or `WithMaxFiles`
fails fast on a negative size or count — the construction returns the
validation error and no scanner value — and accepts any non-negative
values, storing them in the options. -/
theorem scanner_construction_validation (sz cnt : Int) :
    scannerNew [withMaxFileSize sz] =
      (if sz < 0 then .error .negMaxFileSize
       else .ok { defaultNewOptions with maxFileSize := sz }) ∧
    scannerNew [withMaxFiles cnt] =
      (if cnt < 0 then .error .negMaxFiles
       else .ok { defaultNewOptions with maxFiles := cnt }) ∧
    scannerNew [withMaxFileSize sz, withMaxFiles cnt] =
      (if sz < 0 then .error .negMaxFileSize
       else if cnt < 0 then .error .negMaxFiles
       else .ok { defaultNewOptions with maxFileSize := sz, maxFiles := cnt }) := by
  refine ⟨?_, ?_, ?_⟩
  · by_cases hsz : sz < 0 <;> simp [scannerNew, applyOptions, withMaxFileSize, hsz]
  · by_cases hc : cnt < 0 <;> simp [scannerNew, applyOptions, withMaxFiles, hc]
  · by_cases hsz : sz < 0 <;> by_cases hc : cnt < 0 <;>
      simp [scannerNew, applyOptions, withMaxFileSize, withMaxFiles, hsz, hc]

end Pfzf
